import Mathlib

/-!
Verification of the gpt-5-mcp-server request-normalization engine.

The development shallowly embeds the TypeScript server (`gpt5-mcp-server.ts`,
with the zod schemas of `src/schemas.ts`) into Lean:

* JSON-like runtime values are modelled by `JVal`; JavaScript objects are
  modelled by ordered association lists (`Obj`), with `getK`/`setK`/`eraseK`
  mirroring property read, assignment (replace-in-place or append, like JS)
  and deletion.
* `normalizeRequest` mirrors the server's `normalizeRequest` function: zod
  default injection (`model`, `tools`), destructuring plus rest-spread,
  tools normalization (`normalizeTool`), input unification, the
  `max_tokens` / `reasoning_effort` compatibility aliases, stream
  suppression, the `extra` pass-through merge (`Object.assign`), the
  `verbosity` migration and the `response_format` migration.
* `extractText` mirrors the gpt5 tool handler's response-text extraction,
  and `gpt5Handler` the dispatcher's try/catch boundary.
* The minimal-MVP variant's schema (`schemas.ts` with `web_search` and the
  `superRefine` cross-field rule) is embedded in the `Mvp` namespace.

Fallible code is modelled with `Except`; thrown `Error` values become
`Except.error` carrying the error message string.
-/

/-- JSON-like JavaScript runtime values (strings, numbers, booleans, null,
arrays, plain objects).  Objects are ordered association lists, as JS object
properties are ordered.  Numbers are modelled as integers: every number the
normalization logic inspects is integral. -/
inductive JVal where
  | str (s : String)
  | num (n : Int)
  | bool (b : Bool)
  | null
  | arr (elems : List JVal)
  | obj (fields : List (String × JVal))

/-- A JavaScript object: an ordered list of key/value pairs. -/
abbrev Obj := List (String × JVal)

/-- Property read `o[k]`: first binding wins (JS objects have unique keys). -/
def getK : Obj → String → Option JVal
  | [], _ => none
  | (k, v) :: rest, key => if k = key then some v else getK rest key

/-- Property assignment `o[k] = v`: replaces the value in place when the key
exists (JS keeps the original insertion position), otherwise appends. -/
def setK : Obj → String → JVal → Obj
  | [], key, v => [(key, v)]
  | (k, w) :: rest, key, v =>
      if k = key then (k, v) :: rest else (k, w) :: setK rest key v

/-- Property deletion `delete o[k]`. -/
def eraseK (b : Obj) (key : String) : Obj :=
  b.filter (fun p => p.1 ≠ key)

/-- Rest-spread `{...o}` minus a list of destructured keys. -/
def eraseList (b : Obj) (ks : List String) : Obj :=
  ks.foldl (fun acc key => eraseK acc key) b

/-- `Object.assign(b, src)`: copy the source's properties into `b` in order,
overwriting existing keys (last write wins). -/
def objAssign (b : Obj) (src : List (String × JVal)) : Obj :=
  src.foldl (fun acc p => setK acc p.1 p.2) b

/-- JavaScript truthiness of a value. -/
def truthy : JVal → Bool
  | .str s => s ≠ ""
  | .num n => n ≠ 0
  | .bool b => b
  | .null => false
  | .arr _ => true
  | .obj _ => true

/-- Truthiness of a possibly-absent value (`undefined` is falsy). -/
def truthyO : Option JVal → Bool
  | none => false
  | some v => truthy v

/-- The JS loose test `x == null`, true for both `undefined` and `null`. -/
def nullishO : Option JVal → Bool
  | none => true
  | some .null => true
  | some _ => false

/-- Strict equality of a possibly-absent value with a string literal,
as in `t.type === "web_search"`. -/
def isStrVal (v : Option JVal) (s : String) : Bool :=
  match v with
  | some (.str t) => t = s
  | _ => false

/-- Substring test (used to state that error messages name certain fields). -/
def strContains (s pat : String) : Bool :=
  (List.range (s.data.length + 1)).any fun i => pat.data.isPrefixOf (s.data.drop i)

/-! ## `JSON.stringify(v, null, 2)`

The gpt5 tool handler falls back to `JSON.stringify(resp, null, 2)` when it
cannot recognise the response shape. -/

/-- JSON string escaping of a single character. -/
def escapeChar (c : Char) : String :=
  if c = '"' then "\\\""
  else if c = '\\' then "\\\\"
  else if c = '\n' then "\\n"
  else if c = '\t' then "\\t"
  else if c = '\r' then "\\r"
  else if c = '\x08' then "\\b"
  else if c = '\x0c' then "\\f"
  else if c.toNat < 32 then
    "\\u00" ++ String.singleton (Nat.digitChar (c.toNat / 16))
      ++ String.singleton (Nat.digitChar (c.toNat % 16))
  else String.singleton c

/-- A JSON string literal with quotes and escapes. -/
def jstrEsc (s : String) : String :=
  "\"" ++ String.join (s.data.map escapeChar) ++ "\""

/-- `n` spaces of indentation. -/
def spaces (n : Nat) : String :=
  String.mk (List.replicate n ' ')

mutual

/-- `JSON.stringify` with a 2-space gap; `ind` is the current indentation. -/
def jsonStringifyAux : JVal → Nat → String
  | .null, _ => "null"
  | .bool b, _ => if b then "true" else "false"
  | .num n, _ => toString n
  | .str s, _ => jstrEsc s
  | .arr [], _ => "[]"
  | .arr (x :: xs), ind =>
      "[\n" ++ String.intercalate ",\n" (jsonArrItems (x :: xs) (ind + 2))
        ++ "\n" ++ spaces ind ++ "]"
  | .obj [], _ => "\x7b\x7d"
  | .obj (f :: fs), ind =>
      "\x7b\n" ++ String.intercalate ",\n" (jsonObjItems (f :: fs) (ind + 2))
        ++ "\n" ++ spaces ind ++ "\x7d"

/-- Pretty-printed array elements, one string per element. -/
def jsonArrItems : List JVal → Nat → List String
  | [], _ => []
  | x :: xs, ind => (spaces ind ++ jsonStringifyAux x ind) :: jsonArrItems xs ind

/-- Pretty-printed object entries, one string per entry. -/
def jsonObjItems : List (String × JVal) → Nat → List String
  | [], _ => []
  | (k, v) :: fs, ind =>
      (spaces ind ++ jstrEsc k ++ ": " ++ jsonStringifyAux v ind) :: jsonObjItems fs ind

end

/-- `JSON.stringify(v, null, 2)`. -/
def jsonStringify (v : JVal) : String :=
  jsonStringifyAux v 0

/-! ## Response-text extraction (gpt5 tool handler)

Mirrors the handler's extraction of a flat text string from an API response:
`output_text` when it is a string; otherwise, when `output` is an array, the
per-part texts joined with `"\n"` (`filter(Boolean)` drops empty strings);
otherwise the pretty-printed JSON dump. -/

/-- `"text" in c && typeof c.text === "string" ? c.text : ""` for one content
part.  Well-formed responses carry object content parts; non-object parts
yield the empty string. -/
def partText : JVal → String
  | .obj c =>
      match getK c "text" with
      | some (.str s) => s
      | _ => ""
  | _ => ""

/-- The text of one output item: when `o.content` is an array, the non-empty
part texts joined with `"\n"`; otherwise the empty string. -/
def itemText : JVal → String
  | .obj o =>
      match getK o "content" with
      | some (.arr cs) =>
          String.intercalate "\n" ((cs.map partText).filter (fun s => s ≠ ""))
      | _ => ""
  | _ => ""

/-- The gpt5 handler's response-text extraction, a total function of the
response object. -/
def extractText (resp : Obj) : String :=
  match getK resp "output_text" with
  | some (.str s) => s
  | _ =>
      match getK resp "output" with
      | some (.arr os) =>
          String.intercalate "\n" ((os.map itemText).filter (fun s => s ≠ ""))
      | _ => jsonStringify (.obj resp)

/-! ## `normalizeRequest`

The server's `normalizeRequest(args)` is embedded as a composition of steps,
each mirroring one block of the source, over the zod-parsed argument object.
Of zod's behaviour the embedding models default injection (`model` and
`tools` are the only fields with `.default`) and the `.passthrough()` of
unknown keys; theorems about well-typed argument sets carry the typing
facts the corresponding claims presuppose as hypotheses. -/

/-- The canonical built-in web-search tool object. -/
def webSearchPreviewTool : JVal :=
  .obj [("type", .str "web_search_preview")]

/-- The default model value `"gpt-5"`. -/
def defaultModel : JVal := .str "gpt-5"

/-- zod default injection for `model` (fires only when the key is absent). -/
def zdefModel (o : Obj) : Obj :=
  match getK o "model" with
  | none => setK o "model" defaultModel
  | some _ => o

/-- zod default injection for `tools` (fires only when the key is absent). -/
def zdefTools (o : Obj) : Obj :=
  match getK o "tools" with
  | none => setK o "tools" (.arr [webSearchPreviewTool])
  | some _ => o

/-- zod default injection: `model` defaults to `"gpt-5"`, `tools` defaults to
`[{type: "web_search_preview"}]`; these are the only fields of the schema
with a declared default. -/
def zdefaults (o : Obj) : Obj :=
  zdefTools (zdefModel o)

/-- The keys consumed by the destructuring at the top of `normalizeRequest`
(the rest-spread excludes them; `response_format` is additionally stripped
from the rest by the second destructuring). -/
def destructKeys : List String :=
  ["model", "input", "messages", "prompt", "max_tokens",
   "reasoning_effort", "response_format", "extra", "stream"]

/-- `model ?? "gpt-5"`: the destructured `model` with the nullish fallback. -/
def modelVal (parsed : Obj) : JVal :=
  match getK parsed "model" with
  | none => defaultModel
  | some .null => defaultModel
  | some v => v

/-- `const body = { model: model ?? "gpt-5", ...restWithoutRF }`. -/
def mkBody (parsed : Obj) : Obj :=
  ("model", modelVal parsed) :: eraseList parsed destructKeys

/-- JS `String.prototype.toLowerCase` (ASCII case mapping suffices for the
tool keys this server compares against). -/
def jsToLower (s : String) : String :=
  String.mk (s.data.map Char.toLower)

/-- JS `String.prototype.trim`: strip whitespace from both ends. -/
def jsTrim (s : String) : String :=
  String.mk (((s.data.dropWhile Char.isWhitespace).reverse.dropWhile
    Char.isWhitespace).reverse)

/-- `normalizeTool`: expands shorthand strings (trimmed, lower-cased) to tool
objects and rewrites the legacy object tag `web_search` to
`web_search_preview`, preserving all other keys. -/
def normalizeTool : JVal → JVal
  | .str s =>
      let key := jsToLower (jsTrim s)
      if key = "web_search" ∨ key = "web_search_preview" then
        .obj [("type", .str "web_search_preview")]
      else if key = "file_search" then .obj [("type", .str "file_search")]
      else .obj [("type", .str key)]
  | .obj t =>
      if isStrVal (getK t "type") "web_search" then
        .obj (setK t "type" (.str "web_search_preview"))
      else .obj t
  | v => v

/-- The tools block: map `normalizeTool` over an array, and inject the
single-element web-search default when `tools == null`. -/
def toolsStep (b : Obj) : Obj :=
  match getK b "tools" with
  | some (.arr ts) => setK b "tools" (.arr (ts.map normalizeTool))
  | some .null => setK b "tools" (.arr [webSearchPreviewTool])
  | some _ => b
  | none => setK b "tools" (.arr [webSearchPreviewTool])

/-- The error thrown when `messages` is an empty array and neither `prompt`
nor `input` was given. -/
def emptyMessagesErr : String :=
  "messages が空です。prompt か input を指定してください。"

/-- The error thrown when none of `input` / `messages` / `prompt` was given. -/
def allMissingErr : String :=
  "input / messages / prompt のいずれかを指定してください。"

/-- The input-unification block: `input` wins, else a non-empty `messages`
array, else `prompt`; an empty `messages` array with no fallback is an
error, and so is providing nothing. -/
def inputStep (input messages prompt : Option JVal) (b : Obj) :
    Except String Obj :=
  match input with
  | some v => .ok (setK b "input" v)
  | none =>
      match messages, prompt with
      | some (.arr (m :: ms)), _ => .ok (setK b "input" (.arr (m :: ms)))
      | some (.arr []), some p => .ok (setK b "input" p)
      | some (.arr []), none => .error emptyMessagesErr
      | _, some p => .ok (setK b "input" p)
      | _, none => .error allMissingErr

/-- The `max_tokens` compatibility alias: when the body has no (non-null)
`max_output_tokens` and `max_tokens` is a number, copy it across. -/
def tokenAlias (maxTokens : Option JVal) (b : Obj) : Obj :=
  match maxTokens with
  | some (.num n) =>
      if nullishO (getK b "max_output_tokens") then
        setK b "max_output_tokens" (.num n)
      else b
  | _ => b

/-- The `reasoning_effort` compatibility alias:
`if (!body.reasoning && reasoning_effort) body.reasoning = { effort }`. -/
def reasoningAlias (effort : Option JVal) (b : Obj) : Obj :=
  match effort with
  | some v =>
      if ¬ truthyO (getK b "reasoning") ∧ truthy v then
        setK b "reasoning" (.obj [("effort", v)])
      else b
  | none => b

/-- Streaming suppression: `if (stream) body.stream = false`. -/
def streamStep (stream : Option JVal) (b : Obj) : Obj :=
  match stream with
  | some v => if truthy v then setK b "stream" (.bool false) else b
  | none => b

/-- Index/value pairs of an array, with stringified indices, as produced by
spreading or `Object.assign`-ing an array in JS. -/
def arrEntries (xs : List JVal) : List (String × JVal) :=
  xs.enum.map fun p => (toString p.1, p.2)

/-- `if (extra && typeof extra === "object") Object.assign(body, extra)`.
Arrays are `typeof "object"` in JS, so their index entries are copied;
`null` is falsy and skipped. -/
def extraStep (extra : Option JVal) (b : Obj) : Obj :=
  match extra with
  | some (.obj e) => objAssign b e
  | some (.arr xs) => objAssign b (arrEntries xs)
  | _ => b

/-- The fields of `body.text` when it is a (truthy) object, the index
entries when it is an array, and `{}` otherwise. -/
def asObjFields : Option JVal → List (String × JVal)
  | some (.obj t) => t
  | some (.arr xs) => arrEntries xs
  | _ => []

/-- The verbosity migration: a truthy flat `verbosity` is deleted and merged
into `text.verbosity`, preserving the other keys of `text`. -/
def verbosityStep (b : Obj) : Obj :=
  match getK b "verbosity" with
  | some v =>
      if truthy v then
        let b2 := eraseK b "verbosity"
        setK b2 "text" (.obj (setK (asObjFields (getK b2 "text")) "verbosity" v))
      else b
  | none => b

/-- `setTextFormat("json")`: writes `text.format = "json"` over the captured
current `text` fields. -/
def setTextFormat (cur : List (String × JVal)) (b : Obj) : Obj :=
  setK b "text" (.obj (setK cur "format" (.str "json")))

/-- `rf.type ?? rf.format`: the nullish-coalesced tag of a `response_format`
object. -/
def rfTag (o : List (String × JVal)) : Option JVal :=
  match getK o "type" with
  | none => getK o "format"
  | some .null => getK o "format"
  | some v => some v

/-- The body of the `response_format` conversion for a present value, with
the captured `currentText` fields passed explicitly. -/
def rfApply (cur : List (String × JVal)) (rfv : JVal) (b : Obj) : Obj :=
  match rfv with
  | .str s => if s = "json" then setTextFormat cur b else b
  | .obj o =>
      if isStrVal (rfTag o) "json" ∨ isStrVal (rfTag o) "json_object" then
        setTextFormat cur b
      else if isStrVal (rfTag o) "json_schema" then
        setK (setTextFormat cur b) "response_format_original" rfv
      else b
  | _ => b

/-- The `response_format` migration: `"json"` and objects tagged
`json`/`json_object` map to `text.format = "json"`; `json_schema` does too
and additionally preserves the original under `response_format_original`.
Other shapes (arrays carry no `type`/`format` properties; `null` and
primitives fail the `rf && typeof rf === "object"` guard) are no-ops. -/
def rfStep (rf : Option JVal) (b : Obj) : Obj :=
  match rf with
  | none => b
  | some rfv => rfApply (asObjFields (getK b "text")) rfv b

/-- The alias/suppression/merge/migration pipeline that follows input
unification, in source order. -/
def postPipeline (parsed : Obj) (b : Obj) : Obj :=
  rfStep (getK parsed "response_format")
    (verbosityStep
      (extraStep (getK parsed "extra")
        (streamStep (getK parsed "stream")
          (reasoningAlias (getK parsed "reasoning_effort")
            (tokenAlias (getK parsed "max_tokens") b)))))

/-- `normalizeRequest` on the zod-parsed argument object. -/
def normalizeParsed (parsed : Obj) : Except String Obj :=
  let b := toolsStep (mkBody parsed)
  match inputStep (getK parsed "input") (getK parsed "messages")
      (getK parsed "prompt") b with
  | .error e => .error e
  | .ok b2 => .ok (postPipeline parsed b2)

/-- The server's `normalizeRequest`: zod parse (default injection) followed
by the normalization pipeline; a thrown `Error` becomes `Except.error` with
its message. -/
def normalizeRequest (args : Obj) : Except String Obj :=
  normalizeParsed (zdefaults args)

/-! ## The gpt5 tool dispatcher

The handler wraps validate → normalize → API call → extract in a try/catch
and always returns a `ToolResult`; failures set `isError` and compose a
diagnostic string from the caught error's `message`/`status`/`code`/`param`
and, when available, the raw `response.data` blob. -/

/-- One typed content part of an MCP tool result. -/
structure ToolContent where
  type : String
  text : String

/-- An MCP tool result: content parts plus the error flag. -/
structure ToolResult where
  content : List ToolContent
  isError : Bool := false

/-- What the external `openai.responses.create` call does for a given body:
either a response object or a thrown API error. -/
inductive ApiOutcome where
  | success (resp : Obj)
  | failure (message : String) (status : Option Int) (code : Option String)
      (param : Option String) (data : Option JVal)

/-- The catch block's diagnostic: `["Error:", message, "(status ...)",
"(code ...)", "(param ...)"].filter(Boolean).join(" ")` plus a pretty-printed
`Details:` blob when `response.data` exists. -/
def composeErrorText (message : String) (status : Option Int)
    (code : Option String) (param : Option String) (data : Option JVal) :
    String :=
  let statusPart := match status with
    | some n => if n ≠ 0 then "(status " ++ toString n ++ ")" else ""
    | none => ""
  let codePart := match code with
    | some c => if c ≠ "" then "(code " ++ c ++ ")" else ""
    | none => ""
  let paramPart := match param with
    | some p => if p ≠ "" then "(param " ++ p ++ ")" else ""
    | none => ""
  let details := match data with
    | some d => "\nDetails: " ++ jsonStringify d
    | none => ""
  String.intercalate " "
    ((["Error:", message, statusPart, codePart, paramPart]).filter
      (fun s => s ≠ "")) ++ details

/-- The gpt5 tool handler: normalize inside try/catch, call the external API
only on success, extract the text, and wrap any failure as an error-flagged
`ToolResult`.  The second component records whether the external API call was
attempted.  (The model/tool compatibility warning and the failure logging in
the source are `console.error` side effects and do not affect the result.) -/
def gpt5Handler (api : Obj → ApiOutcome) (args : Obj) : ToolResult × Bool :=
  match normalizeRequest args with
  | .error msg =>
      ({ content := [⟨"text", composeErrorText msg none none none none⟩],
         isError := true }, false)
  | .ok body =>
      match api body with
      | .success resp => ({ content := [⟨"text", extractText resp⟩] }, true)
      | .failure message status code param data =>
          ({ content := [⟨"text", composeErrorText message status code param data⟩],
             isError := true }, true)

/-! ## The minimal-MVP schema (`src/schemas.ts` with `web_search`)

The MVP variant's `requestSchema` is strict, defaults `model` to `"gpt-5"`,
requires a non-empty `input` string, defaults `reasoning_effort` to
`"medium"` and `web_search` to `true`, and a `superRefine` rejects the
combination `reasoning_effort === "minimal"` with web search enabled. -/

namespace Mvp

/-- The `reasoning_effort` enumeration. -/
inductive Effort where
  | minimal
  | low
  | medium
  | high
deriving DecidableEq

/-- The raw (pre-default) argument fields of the MVP schema.  The schema is
`.strict()`, so no other fields can be present. -/
structure RawArgs where
  model : Option String := none
  input : Option String := none
  reasoning_effort : Option Effort := none
  web_search : Option Bool := none

/-- The parsed arguments after zod default injection. -/
structure ParsedArgs where
  model : String
  input : String
  reasoning_effort : Effort
  web_search : Bool

/-- One zod issue: a field path and a human-readable message. -/
structure ZodIssue where
  path : List String
  message : String

/-- The `superRefine` issue message for the forbidden
`reasoning_effort = "minimal"` + web-search combination. -/
def wsMinimalMsg : String :=
  "reasoning_effort が \"minimal\" の場合、web_search は利用できません（false にするか effort を low 以上にしてください）"

/-- The `superRefine` cross-field rule: with effort `minimal` and
`web_search ?? true` truthy, add an issue at path `["web_search"]`. -/
def superRefineIssues (v : ParsedArgs) : List ZodIssue :=
  if v.reasoning_effort = .minimal ∧ v.web_search then
    [⟨["web_search"], wsMinimalMsg⟩]
  else []

/-- Validation of the remaining fields once a present `input` is in hand:
the `min(1)` check, the closed `model` enum, default injection, then
`superRefine`. -/
def validateInput (r : RawArgs) (i : String) :
    Except (List ZodIssue) ParsedArgs :=
  if i = "" then .error [⟨["input"], "input は必須です"⟩]
  else
    let m := r.model.getD "gpt-5"
    if m = "gpt-5" ∨ m = "gpt-5-mini" ∨ m = "gpt-5-nano" then
      let parsed : ParsedArgs :=
        ⟨m, i, r.reasoning_effort.getD .medium, r.web_search.getD true⟩
      match superRefineIssues parsed with
      | [] => .ok parsed
      | issues => .error issues
    else .error [⟨["model"], "Invalid enum value"⟩]

/-- The MVP `requestSchema.parse`: field validation (required non-empty
`input`, the closed `model` enum), default injection, then `superRefine`. -/
def validate (r : RawArgs) : Except (List ZodIssue) ParsedArgs :=
  match r.input with
  | none => .error [⟨["input"], "Required"⟩]
  | some i => validateInput r i

end Mvp

/-! # Lemmas about the object model -/

theorem getK_setK_self (b : Obj) (k : String) (v : JVal) :
    getK (setK b k v) k = some v := by
  induction b with
  | nil => simp [setK, getK]
  | cons p rest ih =>
      obtain ⟨k', w⟩ := p
      by_cases h : k' = k
      · simp [setK, h, getK]
      · simp [setK, h, getK, ih]

theorem getK_setK_ne (b : Obj) (k k' : String) (v : JVal) (h : k' ≠ k) :
    getK (setK b k v) k' = getK b k' := by
  have h' : k ≠ k' := Ne.symm h
  induction b with
  | nil => simp [setK, getK, h']
  | cons p rest ih =>
      obtain ⟨k'', w⟩ := p
      by_cases hk : k'' = k
      · subst hk
        simp [setK, getK, h']
      · simp only [setK, if_neg hk]
        by_cases hk' : k'' = k'
        · simp [getK, hk']
        · simp [getK, hk', ih]

theorem getK_eraseK_self (b : Obj) (k : String) :
    getK (eraseK b k) k = none := by
  induction b with
  | nil => rfl
  | cons p rest ih =>
      obtain ⟨k', w⟩ := p
      by_cases h : k' = k
      · simpa [eraseK, List.filter_cons, h] using ih
      · simpa [eraseK, List.filter_cons, getK, h] using ih

theorem getK_eraseK_ne (b : Obj) (k k' : String) (h : k' ≠ k) :
    getK (eraseK b k) k' = getK b k' := by
  induction b with
  | nil => rfl
  | cons p rest ih =>
      obtain ⟨k'', w⟩ := p
      by_cases hk : k'' = k
      · subst hk
        simpa [eraseK, List.filter_cons, getK, Ne.symm h] using ih
      · by_cases hk' : k'' = k'
        · simp [eraseK, List.filter_cons, getK, hk, hk', h]
        · simpa [eraseK, List.filter_cons, getK, hk, hk'] using ih

theorem getK_eraseList_of_not_mem (b : Obj) (ks : List String) (k : String)
    (h : k ∉ ks) : getK (eraseList b ks) k = getK b k := by
  induction ks generalizing b with
  | nil => rfl
  | cons k0 ks ih =>
      have h1 : k ≠ k0 := fun hk => h (by simp [hk])
      have h2 : k ∉ ks := fun hk => h (by simp [hk])
      calc getK (eraseList b (k0 :: ks)) k
          = getK (eraseList (eraseK b k0) ks) k := rfl
        _ = getK (eraseK b k0) k := ih (eraseK b k0) h2
        _ = getK b k := getK_eraseK_ne b k0 k h1

theorem getK_eraseList_of_mem (b : Obj) (ks : List String) (k : String)
    (h : k ∈ ks) : getK (eraseList b ks) k = none := by
  induction ks generalizing b with
  | nil => cases h
  | cons k0 ks ih =>
      by_cases hk : k ∈ ks
      · exact ih (eraseK b k0) hk
      · have hk0 : k = k0 := by
          rcases List.mem_cons.mp h with h1 | h2
          · exact h1
          · exact absurd h2 hk
        subst hk0
        calc getK (eraseList (eraseK b k) ks) k
            = getK (eraseK b k) k := getK_eraseList_of_not_mem _ ks k hk
          _ = none := getK_eraseK_self b k

theorem getK_objAssign_of_noEntry (b : Obj) (e : List (String × JVal))
    (k : String) (h : ∀ p ∈ e, p.1 ≠ k) :
    getK (objAssign b e) k = getK b k := by
  induction e generalizing b with
  | nil => rfl
  | cons p e ih =>
      obtain ⟨k0, v⟩ := p
      have h0 : k0 ≠ k := h (k0, v) (by simp)
      calc getK (objAssign b ((k0, v) :: e)) k
          = getK (objAssign (setK b k0 v) e) k := rfl
        _ = getK (setK b k0 v) k := ih _ (fun q hq => h q (by simp [hq]))
        _ = getK b k := getK_setK_ne b k0 k v (Ne.symm h0)

theorem getK_objAssign_ne_val (b : Obj) (e : List (String × JVal))
    (k : String) (v : JVal) (hb : getK b k ≠ some v)
    (h : ∀ p ∈ e, p.1 = k → p.2 ≠ v) :
    getK (objAssign b e) k ≠ some v := by
  induction e generalizing b with
  | nil => exact hb
  | cons p e ih =>
      obtain ⟨k0, w⟩ := p
      refine ih (setK b k0 w) ?_ (fun q hq => h q (by simp [hq]))
      by_cases hk : k0 = k
      · subst hk
        rw [getK_setK_self]
        intro hc
        exact h (k0, w) (by simp) rfl (by injection hc)
      · rw [getK_setK_ne b k0 k w (Ne.symm hk)]
        exact hb

/-! # Lemmas about the normalization steps -/

theorem getK_zdefModel_ne (o : Obj) (k : String) (h : k ≠ "model") :
    getK (zdefModel o) k = getK o k := by
  unfold zdefModel
  cases hm : getK o "model" with
  | none => exact getK_setK_ne o "model" k defaultModel h
  | some v => rfl

theorem getK_zdefModel_model (o : Obj) :
    getK (zdefModel o) "model" = some ((getK o "model").getD defaultModel) := by
  unfold zdefModel
  cases hm : getK o "model" with
  | none => simp [getK_setK_self]
  | some v => simp [hm]

theorem getK_zdefTools_ne (o : Obj) (k : String) (h : k ≠ "tools") :
    getK (zdefTools o) k = getK o k := by
  unfold zdefTools
  cases ht : getK o "tools" with
  | none => exact getK_setK_ne o "tools" k _ h
  | some v => rfl

theorem getK_zdefTools_tools (o : Obj) :
    getK (zdefTools o) "tools" =
      some ((getK o "tools").getD (.arr [webSearchPreviewTool])) := by
  unfold zdefTools
  cases ht : getK o "tools" with
  | none => simp [getK_setK_self]
  | some v => simp [ht]

theorem getK_zdefaults_ne (o : Obj) (k : String) (h1 : k ≠ "model")
    (h2 : k ≠ "tools") : getK (zdefaults o) k = getK o k := by
  unfold zdefaults
  rw [getK_zdefTools_ne _ _ h2, getK_zdefModel_ne _ _ h1]

theorem getK_zdefaults_model (o : Obj) :
    getK (zdefaults o) "model" = some ((getK o "model").getD defaultModel) := by
  unfold zdefaults
  rw [getK_zdefTools_ne _ _ (by decide), getK_zdefModel_model]

theorem getK_zdefaults_tools (o : Obj) :
    getK (zdefaults o) "tools" =
      some ((getK o "tools").getD (.arr [webSearchPreviewTool])) := by
  unfold zdefaults
  rw [getK_zdefTools_tools, getK_zdefModel_ne _ _ (by decide)]

theorem modelVal_of_some (p : Obj) (v : JVal) (h : getK p "model" = some v)
    (hv : v ≠ .null) : modelVal p = v := by
  unfold modelVal
  rw [h]
  cases v with
  | null => exact absurd rfl hv
  | str s => rfl
  | num n => rfl
  | bool b => rfl
  | arr xs => rfl
  | obj fs => rfl

theorem getK_mkBody_model (p : Obj) :
    getK (mkBody p) "model" = some (modelVal p) := by
  simp [mkBody, getK]

theorem getK_mkBody_ne (p : Obj) (k : String) (h1 : k ≠ "model")
    (h2 : k ∉ destructKeys) : getK (mkBody p) k = getK p k := by
  have hu : getK (mkBody p) k =
      if "model" = k then some (modelVal p)
      else getK (eraseList p destructKeys) k := rfl
  rw [hu, if_neg (Ne.symm h1)]
  exact getK_eraseList_of_not_mem p destructKeys k h2

theorem getK_mkBody_destruct (p : Obj) (k : String) (h1 : k ≠ "model")
    (h2 : k ∈ destructKeys) : getK (mkBody p) k = none := by
  have hu : getK (mkBody p) k =
      if "model" = k then some (modelVal p)
      else getK (eraseList p destructKeys) k := rfl
  rw [hu, if_neg (Ne.symm h1)]
  exact getK_eraseList_of_mem p destructKeys k h2

theorem getK_toolsStep_ne (b : Obj) (k : String) (h : k ≠ "tools") :
    getK (toolsStep b) k = getK b k := by
  unfold toolsStep
  split
  · exact getK_setK_ne b "tools" k _ h
  · exact getK_setK_ne b "tools" k _ h
  · rfl
  · exact getK_setK_ne b "tools" k _ h

theorem getK_toolsStep_arr (b : Obj) (ts : List JVal)
    (h : getK b "tools" = some (.arr ts)) :
    getK (toolsStep b) "tools" = some (.arr (ts.map normalizeTool)) := by
  unfold toolsStep
  rw [h]
  exact getK_setK_self b "tools" _

theorem getK_toolsStep_absent (b : Obj) (h : getK b "tools" = none) :
    getK (toolsStep b) "tools" = some (.arr [webSearchPreviewTool]) := by
  unfold toolsStep
  rw [h]
  exact getK_setK_self b "tools" _

theorem getK_tokenAlias_ne (mt : Option JVal) (b : Obj) (k : String)
    (h : k ≠ "max_output_tokens") : getK (tokenAlias mt b) k = getK b k := by
  unfold tokenAlias
  split
  · split
    · exact getK_setK_ne b "max_output_tokens" k _ h
    · rfl
  · rfl

theorem getK_tokenAlias_of_num (mt : Option JVal) (b : Obj) (n : Int)
    (h : getK b "max_output_tokens" = some (.num n)) :
    getK (tokenAlias mt b) "max_output_tokens" = some (.num n) := by
  unfold tokenAlias
  split
  · split
    · next hn => rw [h] at hn; exact absurd hn (by simp [nullishO])
    · exact h
  · exact h

theorem getK_tokenAlias_copy (b : Obj) (n : Int)
    (h : getK b "max_output_tokens" = none) :
    getK (tokenAlias (some (.num n)) b) "max_output_tokens" = some (.num n) := by
  unfold tokenAlias
  rw [h]
  simp [nullishO, getK_setK_self]

theorem getK_reasoningAlias_ne (re : Option JVal) (b : Obj) (k : String)
    (h : k ≠ "reasoning") : getK (reasoningAlias re b) k = getK b k := by
  unfold reasoningAlias
  split
  · split
    · exact getK_setK_ne b "reasoning" k _ h
    · rfl
  · rfl

theorem getK_streamStep_ne (st : Option JVal) (b : Obj) (k : String)
    (h : k ≠ "stream") : getK (streamStep st b) k = getK b k := by
  unfold streamStep
  split
  · split
    · exact getK_setK_ne b "stream" k _ h
    · rfl
  · rfl

theorem getK_streamStep_stream (st : Option JVal) (b : Obj) :
    getK (streamStep st b) "stream" =
      if truthyO st then some (.bool false) else getK b "stream" := by
  unfold streamStep
  cases st with
  | none => simp [truthyO]
  | some v =>
      by_cases hv : truthy v
      · simp [truthyO, hv, getK_setK_self]
      · simp [truthyO, hv]

theorem getK_extraStep_pres (ex : Option JVal) (b : Obj) (k : String)
    (hex : ex = none ∨ ∃ e, ex = some (.obj e) ∧ ∀ p ∈ e, p.1 ≠ k) :
    getK (extraStep ex b) k = getK b k := by
  rcases hex with hex | ⟨e, hex, he⟩
  · subst hex; rfl
  · subst hex
    exact getK_objAssign_of_noEntry b e k he

theorem getK_verbosityStep_ne (b : Obj) (k : String) (h1 : k ≠ "verbosity")
    (h2 : k ≠ "text") : getK (verbosityStep b) k = getK b k := by
  unfold verbosityStep
  split
  · split
    · rw [getK_setK_ne _ "text" k _ h2, getK_eraseK_ne b "verbosity" k h1]
    · rfl
  · rfl

theorem verbosityStep_of_none (b : Obj) (h : getK b "verbosity" = none) :
    verbosityStep b = b := by
  unfold verbosityStep
  rw [h]

theorem getK_rfApply_ne (cur : List (String × JVal)) (rfv : JVal) (b : Obj)
    (k : String) (h1 : k ≠ "text") (h2 : k ≠ "response_format_original") :
    getK (rfApply cur rfv b) k = getK b k := by
  unfold rfApply
  split
  · split
    · exact getK_setK_ne b "text" k _ h1
    · rfl
  · split
    · exact getK_setK_ne b "text" k _ h1
    · split
      · unfold setTextFormat
        rw [getK_setK_ne _ "response_format_original" k _ h2,
            getK_setK_ne b "text" k _ h1]
      · rfl
  · rfl

theorem getK_rfStep_ne (rf : Option JVal) (b : Obj) (k : String)
    (h1 : k ≠ "text") (h2 : k ≠ "response_format_original") :
    getK (rfStep rf b) k = getK b k := by
  unfold rfStep
  split
  · rfl
  · exact getK_rfApply_ne _ _ b k h1 h2

theorem getK_postPipeline_pres (parsed b : Obj) (k : String)
    (h1 : k ≠ "max_output_tokens") (h2 : k ≠ "reasoning") (h3 : k ≠ "stream")
    (h4 : k ≠ "text") (h5 : k ≠ "verbosity")
    (h6 : k ≠ "response_format_original")
    (hex : getK parsed "extra" = none ∨
      ∃ e, getK parsed "extra" = some (.obj e) ∧ ∀ p ∈ e, p.1 ≠ k) :
    getK (postPipeline parsed b) k = getK b k := by
  unfold postPipeline
  rw [getK_rfStep_ne _ _ _ h4 h6, getK_verbosityStep_ne _ _ h5 h4,
      getK_extraStep_pres _ _ _ hex, getK_streamStep_ne _ _ _ h3,
      getK_reasoningAlias_ne _ _ _ h2, getK_tokenAlias_ne _ _ _ h1]

theorem normalizeParsed_ok_of_input (parsed : Obj) (v : JVal)
    (h : getK parsed "input" = some v) :
    normalizeParsed parsed =
      .ok (postPipeline parsed
        (setK (toolsStep (mkBody parsed)) "input" v)) := by
  simp only [normalizeParsed]
  rw [h]
  rfl

theorem normalizeParsed_ok_of_messages (parsed : Obj) (m : JVal)
    (ms : List JVal) (hi : getK parsed "input" = none)
    (hm : getK parsed "messages" = some (.arr (m :: ms))) :
    normalizeParsed parsed =
      .ok (postPipeline parsed
        (setK (toolsStep (mkBody parsed)) "input" (.arr (m :: ms)))) := by
  simp only [normalizeParsed]
  cases hp : getK parsed "prompt" <;> rw [hi, hm] <;> rfl

theorem normalizeParsed_ok_of_prompt (parsed : Obj) (p : JVal)
    (hi : getK parsed "input" = none)
    (hm : getK parsed "messages" = none ∨
      getK parsed "messages" = some (.arr []))
    (hp : getK parsed "prompt" = some p) :
    normalizeParsed parsed =
      .ok (postPipeline parsed
        (setK (toolsStep (mkBody parsed)) "input" p)) := by
  simp only [normalizeParsed]
  rcases hm with hm | hm <;> rw [hi, hm, hp] <;> rfl

theorem normalizeParsed_error_missing (parsed : Obj)
    (hi : getK parsed "input" = none) (hm : getK parsed "messages" = none)
    (hp : getK parsed "prompt" = none) :
    normalizeParsed parsed = .error allMissingErr := by
  simp only [normalizeParsed]
  rw [hi, hm, hp]
  rfl

theorem normalizeParsed_error_empty (parsed : Obj)
    (hi : getK parsed "input" = none)
    (hm : getK parsed "messages" = some (.arr []))
    (hp : getK parsed "prompt" = none) :
    normalizeParsed parsed = .error emptyMessagesErr := by
  simp only [normalizeParsed]
  rw [hi, hm, hp]
  rfl

theorem inputStep_ok_shape (i m p : Option JVal) (base b2 : Obj)
    (h : inputStep i m p base = .ok b2) :
    ∃ v, b2 = setK base "input" v := by
  unfold inputStep at h
  split at h
  · exact ⟨_, (Except.ok.inj h).symm⟩
  · split at h
    · exact ⟨_, (Except.ok.inj h).symm⟩
    · exact ⟨_, (Except.ok.inj h).symm⟩
    · exact Except.noConfusion h
    · exact ⟨_, (Except.ok.inj h).symm⟩
    · exact Except.noConfusion h

theorem normalizeParsed_ok_shape (parsed : Obj) (b : Obj)
    (h : normalizeParsed parsed = .ok b) :
    ∃ v, b = postPipeline parsed
      (setK (toolsStep (mkBody parsed)) "input" v) := by
  simp only [normalizeParsed] at h
  cases hstep : inputStep (getK parsed "input") (getK parsed "messages")
      (getK parsed "prompt") (toolsStep (mkBody parsed)) with
  | error e => rw [hstep] at h; exact Except.noConfusion h
  | ok b2 =>
      rw [hstep] at h
      obtain ⟨v, hv⟩ := inputStep_ok_shape _ _ _ _ _ hstep
      exact ⟨v, by rw [← Except.ok.inj h, hv]⟩

theorem jsonStringify_obj_ne (fs : List (String × JVal)) :
    jsonStringify (.obj fs) ≠ "" := by
  cases fs with
  | nil => decide
  | cons f fs =>
      intro h
      have h' := congrArg String.length h
      rw [show jsonStringify (.obj (f :: fs)) =
        "\x7b\n" ++ String.intercalate ",\n" (jsonObjItems (f :: fs) 2)
          ++ "\n" ++ spaces 0 ++ "\x7d" from rfl] at h'
      simp [String.length_append] at h'
      exact absurd h'.1.1.1.1 (by decide)

/-! # Claim theorems -/

/-- C4: the response extractor is a total function of the API response with
this priority: a string `output_text` is returned verbatim (so
`{output_text: "hello"}` yields `"hello"`); else, when `output` is an array,
the string-typed `text` of each content part is joined with newline per item
and across items (so `{output: [{content: [{text: "a"}, {text: "b"}]}]}`
yields `"a\nb"`); else the pretty-printed JSON dump of the whole response is
returned (non-empty); absence of extractable text yields the empty string,
never an error. -/
theorem C4_response_extraction :
    extractText [("output_text", JVal.str "hello")] = "hello" ∧
    extractText [("output", JVal.arr [JVal.obj [("content",
      JVal.arr [JVal.obj [("text", JVal.str "a")],
                JVal.obj [("text", JVal.str "b")]])]])] = "a\nb" ∧
    extractText [("output", JVal.arr
      [JVal.obj [("content", JVal.arr [JVal.obj [("text", JVal.str "a")]])],
       JVal.obj [("content", JVal.arr [JVal.obj [("text", JVal.str "b")]])]])]
      = "a\nb" ∧
    (∀ resp s, getK resp "output_text" = some (JVal.str s) →
       extractText resp = s) ∧
    (∀ resp, (∀ s, getK resp "output_text" ≠ some (JVal.str s)) →
       (∀ os, getK resp "output" ≠ some (JVal.arr os)) →
       extractText resp = jsonStringify (JVal.obj resp) ∧
       extractText resp ≠ "") ∧
    extractText [("output", JVal.arr [])] = "" := by
  refine ⟨rfl, rfl, rfl, ?_, ?_, rfl⟩
  · intro resp s h
    unfold extractText
    rw [h]
  · intro resp h1 h2
    have hd : extractText resp = jsonStringify (JVal.obj resp) := by
      unfold extractText
      split
      · next s heq => exact absurd heq (h1 s)
      · next =>
          split
          · next os heq2 => exact absurd heq2 (h2 os)
          · next => rfl
    exact ⟨hd, by rw [hd]; exact jsonStringify_obj_ne resp⟩

/-- C4 witness: the implications of `C4_response_extraction` instantiated at
concrete responses. -/
theorem C4_response_extraction_witness :
    extractText [("output_text", JVal.str "hi"), ("x", JVal.num 1)] = "hi" ∧
    extractText [("status", JVal.str "ok")] =
      jsonStringify (JVal.obj [("status", JVal.str "ok")]) := by
  refine ⟨C4_response_extraction.2.2.2.1 _ "hi" rfl, ?_⟩
  exact (C4_response_extraction.2.2.2.2.1 [("status", JVal.str "ok")]
    (fun s h => Option.noConfusion h) (fun os h => Option.noConfusion h)).1

/-- C9: calling the gpt5 tool with the empty argument object returns an
error-flagged ToolResult whose text names `input`, `messages` and `prompt`;
the failure is caught at the dispatcher boundary (a `ToolResult` is returned
for every possible external API behaviour) and the external API is never
invoked (the second component is `false`). -/
theorem C9_empty_args_failure :
    ∀ api : Obj → ApiOutcome,
      gpt5Handler api [] =
        ({ content := [⟨"text",
             "Error: input / messages / prompt のいずれかを指定してください。"⟩],
           isError := true }, false) ∧
      strContains
        "Error: input / messages / prompt のいずれかを指定してください。"
        "input" = true ∧
      strContains
        "Error: input / messages / prompt のいずれかを指定してください。"
        "messages" = true ∧
      strContains
        "Error: input / messages / prompt のいずれかを指定してください。"
        "prompt" = true := by
  intro api
  exact ⟨rfl, by decide, by decide, by decide⟩

/-- C10: content parts whose `text` is the empty string contribute neither
text nor a newline separator (`filter(Boolean)` drops them), and output items
whose parts produce only empty text contribute nothing; in particular
`{output: [{content: [{text: ""}, {text: "b"}]}]}` extracts to `"b"`,
not `"\nb"`. -/
theorem C10_empty_text_skipped :
    extractText [("output", JVal.arr [JVal.obj [("content",
      JVal.arr [JVal.obj [("text", JVal.str "")],
                JVal.obj [("text", JVal.str "b")]])]])] = "b" ∧
    (∀ cs : List JVal,
       itemText (JVal.obj [("content",
         JVal.arr (JVal.obj [("text", JVal.str "")] :: cs))]) =
       itemText (JVal.obj [("content", JVal.arr cs)])) ∧
    (∀ (o : JVal) (os : List JVal), itemText o = "" →
       extractText [("output", JVal.arr (o :: os))] =
       extractText [("output", JVal.arr os)]) := by
  refine ⟨rfl, fun cs => rfl, ?_⟩
  intro o os h
  show String.intercalate "\n" (((o :: os).map itemText).filter
    (fun s => s ≠ "")) =
    String.intercalate "\n" ((os.map itemText).filter (fun s => s ≠ ""))
  simp [List.filter_cons, h]

/-- C10 witness: an item with an empty `content` array produces no text and
is dropped without a separator. -/
theorem C10_empty_text_skipped_witness :
    extractText [("output", JVal.arr
      [JVal.obj [("content", JVal.arr [])],
       JVal.obj [("content", JVal.arr [JVal.obj [("text", JVal.str "b")]])]])] =
    extractText [("output", JVal.arr
      [JVal.obj [("content", JVal.arr [JVal.obj [("text", JVal.str "b")]])]])] :=
  C10_empty_text_skipped.2.2 (JVal.obj [("content", JVal.arr [])]) _ rfl

/-- C8: a tools list `["web_search"]` normalizes to
`[{type: "web_search_preview"}]`; an entirely absent tools field yields the
same single-element default list; an object-form entry passes through
unchanged unless its legacy type tag is `web_search`, in which case the tag
is rewritten to `web_search_preview` while all other keys are preserved. -/
theorem C8_tool_normalization :
    normalizeTool (JVal.str "web_search") = webSearchPreviewTool ∧
    normalizeRequest [("input", JVal.str "x"),
        ("tools", JVal.arr [JVal.str "web_search"])] =
      .ok [("model", defaultModel), ("tools", JVal.arr [webSearchPreviewTool]),
           ("input", JVal.str "x")] ∧
    normalizeRequest [("input", JVal.str "x")] =
      .ok [("model", defaultModel), ("tools", JVal.arr [webSearchPreviewTool]),
           ("input", JVal.str "x")] ∧
    (∀ b : Obj, getK b "tools" = none →
       getK (toolsStep b) "tools" = some (JVal.arr [webSearchPreviewTool])) ∧
    (∀ t : List (String × JVal), isStrVal (getK t "type") "web_search" = false →
       normalizeTool (JVal.obj t) = JVal.obj t) ∧
    (∀ t : List (String × JVal), isStrVal (getK t "type") "web_search" = true →
       normalizeTool (JVal.obj t) =
         JVal.obj (setK t "type" (JVal.str "web_search_preview")) ∧
       ∀ k, k ≠ "type" →
         getK (setK t "type" (JVal.str "web_search_preview")) k = getK t k) := by
  refine ⟨rfl, rfl, rfl, ?_, ?_, ?_⟩
  · exact fun b h => getK_toolsStep_absent b h
  · intro t h
    simp [normalizeTool, h]
  · intro t h
    refine ⟨by simp [normalizeTool, h], ?_⟩
    intro k hk
    exact getK_setK_ne t "type" k _ hk

/-- C8 witness: the tool-object clauses of `C8_tool_normalization`
instantiated at concrete tool declarations. -/
theorem C8_tool_normalization_witness :
    getK (toolsStep [("model", defaultModel)]) "tools" =
      some (JVal.arr [webSearchPreviewTool]) ∧
    normalizeTool (JVal.obj [("type", JVal.str "file_search")]) =
      JVal.obj [("type", JVal.str "file_search")] ∧
    normalizeTool (JVal.obj [("type", JVal.str "web_search"),
        ("search_context_size", JVal.str "low")]) =
      JVal.obj [("type", JVal.str "web_search_preview"),
        ("search_context_size", JVal.str "low")] ∧
    getK (setK [("type", JVal.str "web_search"),
        ("search_context_size", JVal.str "low")] "type"
        (JVal.str "web_search_preview")) "search_context_size" =
      getK [("type", JVal.str "web_search"),
        ("search_context_size", JVal.str "low")] "search_context_size" := by
  refine ⟨C8_tool_normalization.2.2.2.1 [("model", defaultModel)] rfl,
    C8_tool_normalization.2.2.2.2.1 [("type", JVal.str "file_search")] rfl,
    ?_, ?_⟩
  · exact (C8_tool_normalization.2.2.2.2.2 [("type", JVal.str "web_search"),
      ("search_context_size", JVal.str "low")] rfl).1
  · exact (C8_tool_normalization.2.2.2.2.2 [("type", JVal.str "web_search"),
      ("search_context_size", JVal.str "low")] rfl).2 "search_context_size"
      (by decide)

/-- C5: under the MVP schema, any argument set with
`reasoning_effort: "minimal"` and web search enabled (explicitly or by the
default) fails validation, and the resulting issue is placed at the
`web_search` path with a message naming both `reasoning_effort` and
`web_search`. -/
theorem C5_minimal_webSearch_rejected :
    ∀ r : Mvp.RawArgs, r.reasoning_effort = some .minimal →
      (r.web_search = none ∨ r.web_search = some true) →
      ∀ i, r.input = some i → i ≠ "" →
      (r.model = none ∨ r.model = some "gpt-5" ∨ r.model = some "gpt-5-mini" ∨
        r.model = some "gpt-5-nano") →
      Mvp.validate r = .error [⟨["web_search"], Mvp.wsMinimalMsg⟩] ∧
      strContains Mvp.wsMinimalMsg "reasoning_effort" = true ∧
      strContains Mvp.wsMinimalMsg "web_search" = true := by
  intro r he hw i hi hne hm
  refine ⟨?_, by decide, by decide⟩
  unfold Mvp.validate
  rw [hi]
  show Mvp.validateInput r i = _
  unfold Mvp.validateInput
  rw [if_neg hne, he]
  rcases hm with hm | hm | hm | hm <;> rw [hm] <;>
    rcases hw with hw | hw <;> rw [hw] <;> rfl

/-- C5 witness: `C5_minimal_webSearch_rejected` at a concrete argument set
relying on the `web_search` default. -/
theorem C5_minimal_webSearch_rejected_witness :
    Mvp.validate { input := some "hi", reasoning_effort := some .minimal } =
      .error [⟨["web_search"], Mvp.wsMinimalMsg⟩] :=
  (C5_minimal_webSearch_rejected
    { input := some "hi", reasoning_effort := some .minimal }
    rfl (Or.inl rfl) "hi" rfl (by decide) (Or.inl rfl)).1

/-- C2: on well-typed argument sets, normalizeRequest fails in exactly two
content-missing situations: when none of `input`/`messages`/`prompt` is
provided (the error names all three fields), and when `messages` is present
but an empty array with neither `prompt` nor `input` (the empty array is not
treated as absent). -/
theorem C2_failure_cases :
    ∀ args : Obj,
      (getK args "messages" = none ∨
        ∃ ms, getK args "messages" = some (JVal.arr ms)) →
      (((∃ e, normalizeRequest args = .error e) ↔
         ((getK args "input" = none ∧ getK args "messages" = none ∧
             getK args "prompt" = none) ∨
          (getK args "input" = none ∧
             getK args "messages" = some (JVal.arr []) ∧
             getK args "prompt" = none))) ∧
       (getK args "input" = none → getK args "messages" = none →
          getK args "prompt" = none →
          normalizeRequest args = .error allMissingErr ∧
          strContains allMissingErr "input" = true ∧
          strContains allMissingErr "messages" = true ∧
          strContains allMissingErr "prompt" = true) ∧
       (getK args "input" = none →
          getK args "messages" = some (JVal.arr []) →
          getK args "prompt" = none →
          normalizeRequest args = .error emptyMessagesErr)) := by
  intro args hmt
  have hi' : getK (zdefaults args) "input" = getK args "input" :=
    getK_zdefaults_ne args "input" (by decide) (by decide)
  have hm' : getK (zdefaults args) "messages" = getK args "messages" :=
    getK_zdefaults_ne args "messages" (by decide) (by decide)
  have hp' : getK (zdefaults args) "prompt" = getK args "prompt" :=
    getK_zdefaults_ne args "prompt" (by decide) (by decide)
  refine ⟨⟨?_, ?_⟩, ?_, ?_⟩
  · rintro ⟨e, he⟩
    unfold normalizeRequest at he
    cases hi : getK args "input" with
    | some v =>
        rw [normalizeParsed_ok_of_input _ v (by rw [hi']; exact hi)] at he
        exact Except.noConfusion he
    | none =>
        rcases hmt with hm | ⟨ms, hm⟩
        · cases hp : getK args "prompt" with
          | some p =>
              rw [normalizeParsed_ok_of_prompt _ p (by rw [hi']; exact hi)
                (Or.inl (by rw [hm']; exact hm))
                (by rw [hp']; exact hp)] at he
              exact Except.noConfusion he
          | none => exact Or.inl ⟨rfl, hm, rfl⟩
        · cases ms with
          | nil =>
              cases hp : getK args "prompt" with
              | some p =>
                  rw [normalizeParsed_ok_of_prompt _ p (by rw [hi']; exact hi)
                    (Or.inr (by rw [hm']; exact hm))
                    (by rw [hp']; exact hp)] at he
                  exact Except.noConfusion he
              | none => exact Or.inr ⟨rfl, hm, rfl⟩
          | cons m ms' =>
              rw [normalizeParsed_ok_of_messages _ m ms'
                (by rw [hi']; exact hi) (by rw [hm']; exact hm)] at he
              exact Except.noConfusion he
  · rintro (⟨hi, hm, hp⟩ | ⟨hi, hm, hp⟩)
    · refine ⟨allMissingErr, ?_⟩
      unfold normalizeRequest
      exact normalizeParsed_error_missing _ (by rw [hi']; exact hi)
        (by rw [hm']; exact hm) (by rw [hp']; exact hp)
    · refine ⟨emptyMessagesErr, ?_⟩
      unfold normalizeRequest
      exact normalizeParsed_error_empty _ (by rw [hi']; exact hi)
        (by rw [hm']; exact hm) (by rw [hp']; exact hp)
  · intro hi hm hp
    refine ⟨?_, by decide, by decide, by decide⟩
    unfold normalizeRequest
    exact normalizeParsed_error_missing _ (by rw [hi']; exact hi)
      (by rw [hm']; exact hm) (by rw [hp']; exact hp)
  · intro hi hm hp
    unfold normalizeRequest
    exact normalizeParsed_error_empty _ (by rw [hi']; exact hi)
      (by rw [hm']; exact hm) (by rw [hp']; exact hp)

/-- C2 witness: the two failure situations and one success situation of
`C2_failure_cases` at concrete argument sets. -/
theorem C2_failure_cases_witness :
    normalizeRequest [] = .error allMissingErr ∧
    normalizeRequest [("messages", JVal.arr [])] = .error emptyMessagesErr ∧
    ¬ (∃ e, normalizeRequest [("prompt", JVal.str "p"),
        ("messages", JVal.arr [])] = .error e) := by
  refine ⟨((C2_failure_cases [] (Or.inl rfl)).2.1 rfl rfl rfl).1,
    (C2_failure_cases [("messages", JVal.arr [])]
      (Or.inr ⟨[], rfl⟩)).2.2 rfl rfl rfl, ?_⟩
  intro he
  have h := (C2_failure_cases [("prompt", JVal.str "p"),
    ("messages", JVal.arr [])] (Or.inr ⟨[], rfl⟩)).1.mp he
  rcases h with ⟨h1, h2, h3⟩ | ⟨h1, h2, h3⟩ <;> exact Option.noConfusion h3

/-- C1 counterexample: the claim fails as stated.  For the validated argument
set `{prompt: "y", extra: {input: "z"}}` — which provides exactly one of
`input`/`prompt`/non-empty `messages`, namely `prompt: "y"` — normalization
succeeds but the canonical `input` is `"z"`, not the provided `"y"`: the
`extra` merge (last-write-wins) overwrites the resolved input. -/
theorem C1_extra_overrides_input_cex :
    getK [("prompt", JVal.str "y"),
      ("extra", JVal.obj [("input", JVal.str "z")])] "prompt" =
        some (JVal.str "y") ∧
    (normalizeRequest [("prompt", JVal.str "y"),
      ("extra", JVal.obj [("input", JVal.str "z")])]).map
      (fun b => getK b "input") = .ok (some (JVal.str "z")) ∧
    JVal.str "z" ≠ JVal.str "y" := by
  refine ⟨rfl, rfl, ?_⟩
  intro h
  injection h with h
  exact absurd h (by decide)

/-- C1 (amended): for every validated argument set that provides exactly one
of `input`, `prompt`, or a non-empty `messages` array, and whose `extra`
extension object (if any) does not itself supply an `input` key,
normalizeRequest succeeds and the canonical `input` equals the provided
value verbatim (the messages array itself when `messages` is the source),
with resolution priority `input` first, then non-empty `messages`, then
`prompt`. -/
theorem C1_input_resolution :
    (∀ (args : Obj) (v : JVal), getK args "input" = some v →
       (getK args "extra" = none ∨ ∃ e, getK args "extra" = some (JVal.obj e) ∧
          ∀ p ∈ e, p.1 ≠ "input") →
       ∃ b, normalizeRequest args = .ok b ∧ getK b "input" = some v) ∧
    (∀ (args : Obj) (m : JVal) (ms : List JVal), getK args "input" = none →
       getK args "messages" = some (JVal.arr (m :: ms)) →
       (getK args "extra" = none ∨ ∃ e, getK args "extra" = some (JVal.obj e) ∧
          ∀ p ∈ e, p.1 ≠ "input") →
       ∃ b, normalizeRequest args = .ok b ∧
         getK b "input" = some (JVal.arr (m :: ms))) ∧
    (∀ (args : Obj) (p : JVal), getK args "input" = none →
       (getK args "messages" = none ∨
         getK args "messages" = some (JVal.arr [])) →
       getK args "prompt" = some p →
       (getK args "extra" = none ∨ ∃ e, getK args "extra" = some (JVal.obj e) ∧
          ∀ q ∈ e, q.1 ≠ "input") →
       ∃ b, normalizeRequest args = .ok b ∧ getK b "input" = some p) := by
  refine ⟨?_, ?_, ?_⟩
  · intro args v hv hex
    have hvi : getK (zdefaults args) "input" = some v := by
      rw [getK_zdefaults_ne args "input" (by decide) (by decide)]; exact hv
    have hexp : getK (zdefaults args) "extra" = none ∨
        ∃ e, getK (zdefaults args) "extra" = some (JVal.obj e) ∧
          ∀ p ∈ e, p.1 ≠ "input" := by
      rw [getK_zdefaults_ne args "extra" (by decide) (by decide)]; exact hex
    refine ⟨postPipeline (zdefaults args)
      (setK (toolsStep (mkBody (zdefaults args))) "input" v), ?_, ?_⟩
    · unfold normalizeRequest
      exact normalizeParsed_ok_of_input _ v hvi
    · rw [getK_postPipeline_pres _ _ "input" (by decide) (by decide) (by decide)
        (by decide) (by decide) (by decide) hexp]
      exact getK_setK_self _ "input" v
  · intro args m ms hi hm hex
    have hii : getK (zdefaults args) "input" = none := by
      rw [getK_zdefaults_ne args "input" (by decide) (by decide)]; exact hi
    have hmm : getK (zdefaults args) "messages" = some (JVal.arr (m :: ms)) := by
      rw [getK_zdefaults_ne args "messages" (by decide) (by decide)]; exact hm
    have hexp : getK (zdefaults args) "extra" = none ∨
        ∃ e, getK (zdefaults args) "extra" = some (JVal.obj e) ∧
          ∀ p ∈ e, p.1 ≠ "input" := by
      rw [getK_zdefaults_ne args "extra" (by decide) (by decide)]; exact hex
    refine ⟨postPipeline (zdefaults args)
      (setK (toolsStep (mkBody (zdefaults args))) "input" (JVal.arr (m :: ms))),
      ?_, ?_⟩
    · unfold normalizeRequest
      exact normalizeParsed_ok_of_messages _ m ms hii hmm
    · rw [getK_postPipeline_pres _ _ "input" (by decide) (by decide) (by decide)
        (by decide) (by decide) (by decide) hexp]
      exact getK_setK_self _ "input" _
  · intro args p hi hm hp hex
    have hii : getK (zdefaults args) "input" = none := by
      rw [getK_zdefaults_ne args "input" (by decide) (by decide)]; exact hi
    have hmm : getK (zdefaults args) "messages" = none ∨
        getK (zdefaults args) "messages" = some (JVal.arr []) := by
      rw [getK_zdefaults_ne args "messages" (by decide) (by decide)]; exact hm
    have hpp : getK (zdefaults args) "prompt" = some p := by
      rw [getK_zdefaults_ne args "prompt" (by decide) (by decide)]; exact hp
    have hexp : getK (zdefaults args) "extra" = none ∨
        ∃ e, getK (zdefaults args) "extra" = some (JVal.obj e) ∧
          ∀ q ∈ e, q.1 ≠ "input" := by
      rw [getK_zdefaults_ne args "extra" (by decide) (by decide)]; exact hex
    refine ⟨postPipeline (zdefaults args)
      (setK (toolsStep (mkBody (zdefaults args))) "input" p), ?_, ?_⟩
    · unfold normalizeRequest
      exact normalizeParsed_ok_of_prompt _ p hii hmm hpp
    · rw [getK_postPipeline_pres _ _ "input" (by decide) (by decide) (by decide)
        (by decide) (by decide) (by decide) hexp]
      exact getK_setK_self _ "input" p

/-- C1 witness: the three resolution branches of `C1_input_resolution` at
concrete argument sets. -/
theorem C1_input_resolution_witness :
    (∃ b, normalizeRequest [("input", JVal.str "x")] = .ok b ∧
       getK b "input" = some (JVal.str "x")) ∧
    (∃ b, normalizeRequest
        [("messages", JVal.arr [JVal.obj [("role", JVal.str "user")]])] =
        .ok b ∧
       getK b "input" =
         some (JVal.arr [JVal.obj [("role", JVal.str "user")]])) ∧
    (∃ b, normalizeRequest [("prompt", JVal.str "p"),
        ("messages", JVal.arr [])] = .ok b ∧
       getK b "input" = some (JVal.str "p")) :=
  ⟨C1_input_resolution.1 [("input", JVal.str "x")] (JVal.str "x") rfl
      (Or.inl rfl),
   C1_input_resolution.2.1
      [("messages", JVal.arr [JVal.obj [("role", JVal.str "user")]])]
      (JVal.obj [("role", JVal.str "user")]) [] rfl rfl (Or.inl rfl),
   C1_input_resolution.2.2 [("prompt", JVal.str "p"),
      ("messages", JVal.arr [])] (JVal.str "p") rfl (Or.inr rfl) rfl
      (Or.inl rfl)⟩

theorem getK_postPipeline_stream_ne_true (parsed b2 : Obj)
    (hb : getK b2 "stream" = none)
    (hex : getK parsed "extra" = none ∨
      ∃ e, getK parsed "extra" = some (JVal.obj e) ∧
        ∀ p ∈ e, p.1 = "stream" → p.2 ≠ JVal.bool true) :
    getK (postPipeline parsed b2) "stream" ≠ some (JVal.bool true) := by
  unfold postPipeline
  rw [getK_rfStep_ne _ _ _ (by decide) (by decide),
      getK_verbosityStep_ne _ _ (by decide) (by decide)]
  have h1 : getK (streamStep (getK parsed "stream")
      (reasoningAlias (getK parsed "reasoning_effort")
        (tokenAlias (getK parsed "max_tokens") b2))) "stream" ≠
      some (JVal.bool true) := by
    rw [getK_streamStep_stream]
    by_cases ht : truthyO (getK parsed "stream") = true
    · rw [if_pos ht]
      intro hc
      injection hc with hc
      injection hc with hc
      exact Bool.noConfusion hc
    · rw [if_neg ht, getK_reasoningAlias_ne _ _ _ (by decide),
          getK_tokenAlias_ne _ _ _ (by decide), hb]
      exact fun hc => Option.noConfusion hc
  rcases hex with hx | ⟨e, hx, he⟩
  · rw [hx]
    exact h1
  · rw [hx]
    exact getK_objAssign_ne_val _ e "stream" (JVal.bool true) h1 he

theorem getK_postPipeline_stream_false (parsed b2 : Obj)
    (hst : truthyO (getK parsed "stream") = true)
    (hex : getK parsed "extra" = none ∨
      ∃ e, getK parsed "extra" = some (JVal.obj e) ∧ ∀ p ∈ e, p.1 ≠ "stream") :
    getK (postPipeline parsed b2) "stream" = some (JVal.bool false) := by
  unfold postPipeline
  rw [getK_rfStep_ne _ _ _ (by decide) (by decide),
      getK_verbosityStep_ne _ _ (by decide) (by decide)]
  have h1 : getK (streamStep (getK parsed "stream")
      (reasoningAlias (getK parsed "reasoning_effort")
        (tokenAlias (getK parsed "max_tokens") b2))) "stream" =
      some (JVal.bool false) := by
    rw [getK_streamStep_stream, if_pos hst]
  rcases hex with hx | ⟨e, hx, he⟩
  · rw [hx]
    exact h1
  · rw [hx]
    exact (getK_objAssign_of_noEntry _ e "stream" he).trans h1

/-- C3 counterexample: the claim fails as stated.  For the validated argument
set `{input: "x", extra: {stream: true}}` normalization succeeds and the
canonical request has `stream: true` — the `extra` merge runs after the
stream suppression and forwards its `stream` key verbatim. -/
theorem C3_extra_stream_cex :
    (normalizeRequest [("input", JVal.str "x"),
      ("extra", JVal.obj [("stream", JVal.bool true)])]).map
      (fun b => getK b "stream") = .ok (some (JVal.bool true)) := rfl

/-- C3 (amended): for every argument set on which normalizeRequest succeeds
and whose `extra` object does not itself supply `stream: true`, the canonical
request never has `stream` equal to `true`; in particular a truthy requested
top-level `stream` flag is forced to `false` in the output (when `extra`
supplies no `stream` key at all).  The `extra` merge is last-write-wins and
can reintroduce `stream: true`. -/
theorem C3_stream_suppression :
    (∀ (args b : Obj), normalizeRequest args = .ok b →
       (getK args "extra" = none ∨
         ∃ e, getK args "extra" = some (JVal.obj e) ∧
           ∀ p ∈ e, p.1 = "stream" → p.2 ≠ JVal.bool true) →
       getK b "stream" ≠ some (JVal.bool true)) ∧
    (∀ (args b : Obj), normalizeRequest args = .ok b →
       truthyO (getK args "stream") = true →
       (getK args "extra" = none ∨
         ∃ e, getK args "extra" = some (JVal.obj e) ∧
           ∀ p ∈ e, p.1 ≠ "stream") →
       getK b "stream" = some (JVal.bool false)) := by
  constructor
  · intro args b hok hex
    obtain ⟨v, hb⟩ := normalizeParsed_ok_shape (zdefaults args) b hok
    subst hb
    apply getK_postPipeline_stream_ne_true
    · rw [getK_setK_ne _ "input" "stream" _ (by decide),
          getK_toolsStep_ne _ "stream" (by decide),
          getK_mkBody_destruct _ "stream" (by decide) (by decide)]
    · rw [getK_zdefaults_ne args "extra" (by decide) (by decide)]
      exact hex
  · intro args b hok hst hex
    obtain ⟨v, hb⟩ := normalizeParsed_ok_shape (zdefaults args) b hok
    subst hb
    apply getK_postPipeline_stream_false
    · rw [getK_zdefaults_ne args "stream" (by decide) (by decide)]
      exact hst
    · rw [getK_zdefaults_ne args "extra" (by decide) (by decide)]
      exact hex

/-- C3 witness: `C3_stream_suppression` at concrete argument sets — a truthy
`stream: true` request is forced to `stream: false`, and a request without
`stream` yields no `stream: true`. -/
theorem C3_stream_suppression_witness :
    getK [("model", defaultModel), ("tools", JVal.arr [webSearchPreviewTool]),
      ("input", JVal.str "x"), ("stream", JVal.bool false)] "stream" =
      some (JVal.bool false) ∧
    getK [("model", defaultModel), ("tools", JVal.arr [webSearchPreviewTool]),
      ("input", JVal.str "x")] "stream" ≠ some (JVal.bool true) :=
  ⟨C3_stream_suppression.2
      [("input", JVal.str "x"), ("stream", JVal.bool true)] _ rfl rfl
      (Or.inl rfl),
   C3_stream_suppression.1 [("input", JVal.str "x")] _ rfl (Or.inl rfl)⟩

theorem getK_postPipeline_eq_tokenAlias (parsed b2 : Obj) (k : String)
    (h2 : k ≠ "reasoning") (h3 : k ≠ "stream") (h4 : k ≠ "text")
    (h5 : k ≠ "verbosity") (h6 : k ≠ "response_format_original")
    (hex : getK parsed "extra" = none ∨
      ∃ e, getK parsed "extra" = some (JVal.obj e) ∧ ∀ p ∈ e, p.1 ≠ k) :
    getK (postPipeline parsed b2) k =
      getK (tokenAlias (getK parsed "max_tokens") b2) k := by
  unfold postPipeline
  rw [getK_rfStep_ne _ _ _ h4 h6, getK_verbosityStep_ne _ _ h5 h4]
  rcases hex with hx | ⟨e, hx, he⟩
  · rw [hx]
    show getK (streamStep (getK parsed "stream")
      (reasoningAlias (getK parsed "reasoning_effort")
        (tokenAlias (getK parsed "max_tokens") b2))) k =
      getK (tokenAlias (getK parsed "max_tokens") b2) k
    rw [getK_streamStep_ne _ _ _ h3, getK_reasoningAlias_ne _ _ _ h2]
  · rw [hx]
    exact (getK_objAssign_of_noEntry _ e k he).trans
      (by rw [getK_streamStep_ne _ _ _ h3, getK_reasoningAlias_ne _ _ _ h2])

/-- C7 counterexample: the claim fails as stated.  For the validated argument
set `{input: "x", max_tokens: 10, max_output_tokens: 20,
extra: {max_tokens: 5}}` — which contains both `max_tokens: 10` and
`max_output_tokens: 20` — the canonical request does contain a `max_tokens`
key (value 5): the `extra` merge reintroduces it after the alias handling
dropped it. -/
theorem C7_extra_max_tokens_cex :
    (normalizeRequest [("input", JVal.str "x"),
      ("max_tokens", JVal.num 10), ("max_output_tokens", JVal.num 20),
      ("extra", JVal.obj [("max_tokens", JVal.num 5)])]).map
      (fun b => getK b "max_tokens") = .ok (some (JVal.num 5)) := rfl

/-- C7 (amended): for every argument set whose `extra` object (if any)
supplies neither a `max_tokens` nor a `max_output_tokens` key, and on which
normalizeRequest succeeds: when both `max_tokens` and `max_output_tokens`
are given, the canonical request keeps the explicit `max_output_tokens`
value and contains no `max_tokens` key; when only `max_tokens` is given, its
value is copied to `max_output_tokens` and the legacy key is dropped. -/
theorem C7_token_alias :
    (∀ (args b : Obj) (n1 n2 : Int),
       getK args "max_tokens" = some (JVal.num n1) →
       getK args "max_output_tokens" = some (JVal.num n2) →
       (getK args "extra" = none ∨
         ∃ e, getK args "extra" = some (JVal.obj e) ∧
           ∀ p ∈ e, p.1 ≠ "max_tokens" ∧ p.1 ≠ "max_output_tokens") →
       normalizeRequest args = .ok b →
       getK b "max_output_tokens" = some (JVal.num n2) ∧
       getK b "max_tokens" = none) ∧
    (∀ (args b : Obj) (n : Int),
       getK args "max_tokens" = some (JVal.num n) →
       getK args "max_output_tokens" = none →
       (getK args "extra" = none ∨
         ∃ e, getK args "extra" = some (JVal.obj e) ∧
           ∀ p ∈ e, p.1 ≠ "max_tokens" ∧ p.1 ≠ "max_output_tokens") →
       normalizeRequest args = .ok b →
       getK b "max_output_tokens" = some (JVal.num n) ∧
       getK b "max_tokens" = none) := by
  have hbase : ∀ (args : Obj) (v : JVal),
      getK (setK (toolsStep (mkBody (zdefaults args))) "input" v)
        "max_output_tokens" = getK args "max_output_tokens" := by
    intro args v
    rw [getK_setK_ne _ "input" _ _ (by decide),
        getK_toolsStep_ne _ _ (by decide),
        getK_mkBody_ne _ _ (by decide) (by decide),
        getK_zdefaults_ne args _ (by decide) (by decide)]
  have hmtnone : ∀ (args : Obj) (v : JVal),
      getK (setK (toolsStep (mkBody (zdefaults args))) "input" v)
        "max_tokens" = none := by
    intro args v
    rw [getK_setK_ne _ "input" _ _ (by decide),
        getK_toolsStep_ne _ _ (by decide),
        getK_mkBody_destruct _ _ (by decide) (by decide)]
  have hexmo : ∀ args : Obj,
      (getK args "extra" = none ∨
        ∃ e, getK args "extra" = some (JVal.obj e) ∧
          ∀ p ∈ e, p.1 ≠ "max_tokens" ∧ p.1 ≠ "max_output_tokens") →
      (getK (zdefaults args) "extra" = none ∨
        ∃ e, getK (zdefaults args) "extra" = some (JVal.obj e) ∧
          ∀ p ∈ e, p.1 ≠ "max_output_tokens") := by
    intro args hex
    rw [getK_zdefaults_ne args "extra" (by decide) (by decide)]
    rcases hex with hx | ⟨e, hx, he⟩
    · exact Or.inl hx
    · exact Or.inr ⟨e, hx, fun p hp => (he p hp).2⟩
  have hexmt : ∀ args : Obj,
      (getK args "extra" = none ∨
        ∃ e, getK args "extra" = some (JVal.obj e) ∧
          ∀ p ∈ e, p.1 ≠ "max_tokens" ∧ p.1 ≠ "max_output_tokens") →
      (getK (zdefaults args) "extra" = none ∨
        ∃ e, getK (zdefaults args) "extra" = some (JVal.obj e) ∧
          ∀ p ∈ e, p.1 ≠ "max_tokens") := by
    intro args hex
    rw [getK_zdefaults_ne args "extra" (by decide) (by decide)]
    rcases hex with hx | ⟨e, hx, he⟩
    · exact Or.inl hx
    · exact Or.inr ⟨e, hx, fun p hp => (he p hp).1⟩
  constructor
  · intro args b n1 n2 hmt hmo hex hok
    obtain ⟨v, hb⟩ := normalizeParsed_ok_shape (zdefaults args) b hok
    subst hb
    constructor
    · rw [getK_postPipeline_eq_tokenAlias _ _ _ (by decide) (by decide)
        (by decide) (by decide) (by decide) (hexmo args hex)]
      exact getK_tokenAlias_of_num _ _ n2 ((hbase args v).trans hmo)
    · rw [getK_postPipeline_eq_tokenAlias _ _ _ (by decide) (by decide)
        (by decide) (by decide) (by decide) (hexmt args hex),
        getK_tokenAlias_ne _ _ _ (by decide)]
      exact hmtnone args v
  · intro args b n hmt hmo hex hok
    obtain ⟨v, hb⟩ := normalizeParsed_ok_shape (zdefaults args) b hok
    subst hb
    have hpmt : getK (zdefaults args) "max_tokens" = some (JVal.num n) := by
      rw [getK_zdefaults_ne args "max_tokens" (by decide) (by decide)]
      exact hmt
    constructor
    · rw [getK_postPipeline_eq_tokenAlias _ _ _ (by decide) (by decide)
        (by decide) (by decide) (by decide) (hexmo args hex), hpmt]
      exact getK_tokenAlias_copy _ n ((hbase args v).trans hmo)
    · rw [getK_postPipeline_eq_tokenAlias _ _ _ (by decide) (by decide)
        (by decide) (by decide) (by decide) (hexmt args hex),
        getK_tokenAlias_ne _ _ _ (by decide)]
      exact hmtnone args v

/-- C7 witness: `C7_token_alias` at the claim's concrete values 10 and 20,
and at a set with only `max_tokens: 10`. -/
theorem C7_token_alias_witness :
    (getK [("model", defaultModel), ("max_output_tokens", JVal.num 20),
       ("tools", JVal.arr [webSearchPreviewTool]), ("input", JVal.str "x")]
       "max_output_tokens" = some (JVal.num 20) ∧
     getK [("model", defaultModel), ("max_output_tokens", JVal.num 20),
       ("tools", JVal.arr [webSearchPreviewTool]), ("input", JVal.str "x")]
       "max_tokens" = none) ∧
    (getK [("model", defaultModel), ("tools", JVal.arr [webSearchPreviewTool]),
       ("input", JVal.str "x"), ("max_output_tokens", JVal.num 10)]
       "max_output_tokens" = some (JVal.num 10) ∧
     getK [("model", defaultModel), ("tools", JVal.arr [webSearchPreviewTool]),
       ("input", JVal.str "x"), ("max_output_tokens", JVal.num 10)]
       "max_tokens" = none) :=
  ⟨C7_token_alias.1 [("input", JVal.str "x"), ("max_tokens", JVal.num 10),
      ("max_output_tokens", JVal.num 20)] _ 10 20 rfl rfl (Or.inl rfl) rfl,
   C7_token_alias.2 [("input", JVal.str "x"), ("max_tokens", JVal.num 10)]
      _ 10 rfl rfl (Or.inl rfl) rfl⟩

/-- C6 counterexample: the claim fails as stated.  The canonical request
`{model, tools, input, stream: false}` — itself the output of normalizing
`{input: "x", stream: true}`, and containing none of the legacy/alias fields
the claim lists — is not returned unchanged by normalization: its
`stream: false` key is dropped (the falsy destructured `stream` never
reaches the output). -/
theorem C6_stream_false_cex :
    normalizeRequest [("input", JVal.str "x"), ("stream", JVal.bool true)] =
      .ok [("model", JVal.str "gpt-5"),
           ("tools", JVal.arr [webSearchPreviewTool]),
           ("input", JVal.str "x"), ("stream", JVal.bool false)] ∧
    getK [("model", JVal.str "gpt-5"),
          ("tools", JVal.arr [webSearchPreviewTool]),
          ("input", JVal.str "x"), ("stream", JVal.bool false)] "stream" =
      some (JVal.bool false) ∧
    (normalizeRequest [("model", JVal.str "gpt-5"),
        ("tools", JVal.arr [webSearchPreviewTool]),
        ("input", JVal.str "x"), ("stream", JVal.bool false)]).map
      (fun b => getK b "stream") = .ok none :=
  ⟨rfl, rfl, rfl⟩

/-- C6 (amended): normalizing an already-canonical request — one containing
no legacy or alias fields (`max_tokens`, `reasoning_effort`, `verbosity`,
`response_format`, `prompt`, `messages`, `extra`) and additionally no
`stream` field — returns it unchanged (pointwise on every key), except that
the default `tools` list is injected when `tools` is absent.  (Canonicity of
a present `tools` array is expressed by it being a fixed point of
`normalizeTool`.) -/
theorem C6_idempotence :
    ∀ (r : Obj) (mv iv : JVal),
      getK r "model" = some mv → mv ≠ JVal.null →
      getK r "input" = some iv →
      getK r "messages" = none → getK r "prompt" = none →
      getK r "max_tokens" = none → getK r "reasoning_effort" = none →
      getK r "verbosity" = none → getK r "response_format" = none →
      getK r "extra" = none → getK r "stream" = none →
      (getK r "tools" = none ∨
        ∃ ts, getK r "tools" = some (JVal.arr ts) ∧
          ts.map normalizeTool = ts) →
      ∃ b, normalizeRequest r = .ok b ∧
        (∀ k, k ≠ "tools" → getK b k = getK r k) ∧
        (getK r "tools" = none →
          getK b "tools" = some (JVal.arr [webSearchPreviewTool])) ∧
        (∀ ts, getK r "tools" = some (JVal.arr ts) →
          getK b "tools" = some (JVal.arr ts)) := by
  intro r mv iv hm hmn hi hmsg hpr hmt hre hv hrf hex hst htools
  have hza : ∀ key : String, key ≠ "model" → key ≠ "tools" →
      getK (zdefaults r) key = getK r key :=
    fun key h1 h2 => getK_zdefaults_ne r key h1 h2
  have hpi : getK (zdefaults r) "input" = some iv := by
    rw [hza _ (by decide) (by decide)]; exact hi
  have hv2 : getK (setK (toolsStep (mkBody (zdefaults r))) "input" iv)
      "verbosity" = none := by
    rw [getK_setK_ne _ "input" _ _ (by decide),
        getK_toolsStep_ne _ _ (by decide),
        getK_mkBody_ne _ _ (by decide) (by decide),
        hza _ (by decide) (by decide)]
    exact hv
  have hpp : postPipeline (zdefaults r)
      (setK (toolsStep (mkBody (zdefaults r))) "input" iv) =
      setK (toolsStep (mkBody (zdefaults r))) "input" iv := by
    unfold postPipeline
    rw [hza "max_tokens" (by decide) (by decide), hmt,
        hza "reasoning_effort" (by decide) (by decide), hre,
        hza "stream" (by decide) (by decide), hst,
        hza "extra" (by decide) (by decide), hex,
        hza "response_format" (by decide) (by decide), hrf]
    show rfStep none (verbosityStep
      (setK (toolsStep (mkBody (zdefaults r))) "input" iv)) =
      setK (toolsStep (mkBody (zdefaults r))) "input" iv
    rw [verbosityStep_of_none _ hv2]
    rfl
  refine ⟨setK (toolsStep (mkBody (zdefaults r))) "input" iv, ?_, ?_, ?_, ?_⟩
  · unfold normalizeRequest
    rw [normalizeParsed_ok_of_input _ iv hpi, hpp]
  · intro k hk
    by_cases hki : k = "input"
    · subst hki
      rw [getK_setK_self, hi]
    · rw [getK_setK_ne _ "input" k iv hki, getK_toolsStep_ne _ k hk]
      by_cases hkm : k = "model"
      · subst hkm
        rw [getK_mkBody_model,
            modelVal_of_some (zdefaults r) mv
              (by rw [getK_zdefaults_model, hm]; rfl) hmn, hm]
      · by_cases hkd : k ∈ destructKeys
        · rw [getK_mkBody_destruct _ k hkm hkd]
          have hrk : getK r k = none := by
            simp only [destructKeys, List.mem_cons, List.not_mem_nil,
              or_false] at hkd
            rcases hkd with h | h | h | h | h | h | h | h | h <;> subst h
            · exact absurd rfl hkm
            · exact absurd rfl hki
            · exact hmsg
            · exact hpr
            · exact hmt
            · exact hre
            · exact hrf
            · exact hex
            · exact hst
          exact hrk.symm
        · rw [getK_mkBody_ne _ k hkm hkd]
          exact hza k hkm hk
  · intro ht
    rw [getK_setK_ne _ "input" _ _ (by decide)]
    have h0 : getK (mkBody (zdefaults r)) "tools" =
        some (JVal.arr [webSearchPreviewTool]) := by
      rw [getK_mkBody_ne _ _ (by decide) (by decide), getK_zdefaults_tools, ht]
      rfl
    rw [getK_toolsStep_arr _ _ h0]
    rfl
  · intro ts ht
    rcases htools with ht0 | ⟨ts', ht', hmap⟩
    · rw [ht0] at ht
      exact Option.noConfusion ht
    · have hmap2 : ts.map normalizeTool = ts := by
        have h := ht'.symm.trans ht
        injection h with h
        injection h with h
        rwa [h] at hmap
      rw [getK_setK_ne _ "input" _ _ (by decide)]
      have h0 : getK (mkBody (zdefaults r)) "tools" = some (JVal.arr ts) := by
        rw [getK_mkBody_ne _ _ (by decide) (by decide), getK_zdefaults_tools,
            ht]
        rfl
      rw [getK_toolsStep_arr _ _ h0, hmap2]

/-- C6 witness: `C6_idempotence` at the concrete canonical request
`{model: "gpt-5", tools: [{type: "web_search_preview"}], input: "x"}`. -/
theorem C6_idempotence_witness :
    ∃ b, normalizeRequest [("model", JVal.str "gpt-5"),
        ("tools", JVal.arr [webSearchPreviewTool]),
        ("input", JVal.str "x")] = .ok b ∧
      getK b "input" = some (JVal.str "x") ∧
      getK b "tools" = some (JVal.arr [webSearchPreviewTool]) := by
  obtain ⟨b, hok, hall, _, htools⟩ :=
    C6_idempotence [("model", JVal.str "gpt-5"),
      ("tools", JVal.arr [webSearchPreviewTool]), ("input", JVal.str "x")]
      (JVal.str "gpt-5") (JVal.str "x") rfl (fun h => JVal.noConfusion h)
      rfl rfl rfl rfl rfl rfl rfl rfl rfl
      (Or.inr ⟨[webSearchPreviewTool], rfl, rfl⟩)
  refine ⟨b, hok, ?_, htools [webSearchPreviewTool] rfl⟩
  rw [hall "input" (by decide)]
  rfl
